import Mathlib

/-!
Verification model of `api/serve-domain.js`, a multi-tenant static-site
router.  The handler extracts a host from the request headers, validates it,
resolves `<cwd>/<host>/index.html`, and serves it or a structured error.

JavaScript strings are modelled as Lean `String`s (lists of characters), the
Node.js `path` module (POSIX flavour) is embedded as executable functions on
segment lists, and the filesystem is an abstract record of the three calls the
handler makes (`existsSync`, `statSync().isFile()`, `readFileSync`).  Fallible
calls return `Except`; the catch blocks of the source become `match`es on the
error value.  Each handler invocation also returns the list of filesystem
operations it performed, in order, so that "never touches the filesystem"
claims are statable.
-/

namespace DomainRouter

/-! ## JavaScript string primitives used by the handler -/

/-- JavaScript `a || b` on strings/undefined: `undefined` and `""` are falsy. -/
def jsOr (o : Option String) (d : String) : String :=
  match o with
  | none => d
  | some s => if s == "" then d else s

/-- `rawHost.split(':')[0]` : everything before the first `':'`. -/
def splitColonHead (s : String) : String :=
  ⟨s.data.takeWhile (fun c => c != ':')⟩

/-- `host.replace(/^www\./i, '')` : strip one leading case-insensitive `www.`. -/
def stripWww (s : String) : String :=
  match s.data with
  | a :: b :: c :: d :: rest =>
    if a.toLower == 'w' && b.toLower == 'w' && c.toLower == 'w' && d == '.' then
      ⟨rest⟩
    else s
  | _ => s

/-- `[a-z]` under the `/i` flag (ASCII letters, either case). -/
def isAlphaI (c : Char) : Bool :=
  ('a' ≤ c && c ≤ 'z') || ('A' ≤ c && c ≤ 'Z')

/-- `[0-9]`. -/
def isDigitC (c : Char) : Bool :=
  '0' ≤ c && c ≤ '9'

/-- `[a-z0-9]` under `/i`. -/
def isAlnumI (c : Char) : Bool :=
  isAlphaI c || isDigitC c

/-- `[a-z0-9.-]` under `/i`. -/
def isHostCharI (c : Char) : Bool :=
  isAlnumI c || c == '.' || c == '-'

/-- `/^[a-z0-9][a-z0-9.-]*\.[a-z]{2,}$/i.test(s)` (first variant's validation
regex): a leading alphanumeric, then any run of `[a-z0-9.-]`, then a literal
dot and a top-level label of at least two letters, anchored on both sides.
`test` succeeds iff some split of the string fits that shape. -/
def regexTest1 (s : String) : Bool :=
  match s.data with
  | [] => false
  | c :: rest =>
    isAlnumI c &&
      (List.range rest.length).any (fun i =>
        match rest.drop i with
        | '.' :: tld =>
          (rest.take i).all isHostCharI && decide (2 ≤ tld.length) && tld.all isAlphaI
        | _ => false)

/-- `/^[a-z0-9.-]+\.[a-z]{2,}$/i.test(s)` (second variant's validation regex). -/
def regexTest2 (s : String) : Bool :=
  (List.range s.data.length).any (fun i =>
    match s.data.drop i with
    | '.' :: tld =>
      decide (1 ≤ i) && (s.data.take i).all isHostCharI &&
        decide (2 ≤ tld.length) && tld.all isAlphaI
    | _ => false)

/-- Does `pat` occur as a contiguous run inside the list?  (The search JS
`String.prototype.includes` performs.) -/
def listHasSub (pat : List Char) : List Char → Bool
  | [] => pat.isEmpty
  | c :: cs => pat.isPrefixOf (c :: cs) || listHasSub pat cs

/-- JavaScript `s.includes(sub)`. -/
def strContains (s sub : String) : Bool :=
  listHasSub sub.data s.data

/-- JavaScript `s.startsWith(pre)`. -/
def strStartsWith (s pre : String) : Bool :=
  pre.data.isPrefixOf s.data

/-- JavaScript `String.prototype.replace` with a *string* pattern: replace the
first occurrence of `pat` (as a literal substring) by `rep`. -/
def replaceFirstList (pat rep : List Char) : List Char → List Char
  | [] => if pat.isEmpty then rep else []
  | c :: cs =>
    if pat.isPrefixOf (c :: cs) then rep ++ (c :: cs).drop pat.length
    else c :: replaceFirstList pat rep cs

/-- `s.replace(pat, rep)` for a string pattern `pat`. -/
def jsReplaceFirst (s pat rep : String) : String :=
  ⟨replaceFirstList pat.data rep.data s.data⟩

/-! ## POSIX `path` module (`join`, `normalize`)

Node's `path.posix.normalize` splits on `/`, drops empty and `.` segments,
resolves `..` against the accumulated stack (absolute paths cannot go above
the root; relative paths keep leading `..`s), rejoins with `/`, and preserves
a meaningful trailing slash. `path.posix.join(a, b)` concatenates the
non-empty arguments with `/` and normalizes the result. -/

/-- Split a character list on a separator (keeping empty fields). -/
def splitAux (sep : Char) : List Char → List Char → List (List Char)
  | [], acc => [acc.reverse]
  | c :: cs, acc =>
    if c == sep then acc.reverse :: splitAux sep cs []
    else splitAux sep cs (c :: acc)

/-- `splitChar sep l` : the fields of `l` separated by `sep`. -/
def splitChar (sep : Char) (l : List Char) : List (List Char) :=
  splitAux sep l []

/-- Join segments with `'/'`. -/
def joinSegs : List (List Char) → List Char
  | [] => []
  | [s] => s
  | s :: t :: rest => s ++ '/' :: joinSegs (t :: rest)

/-- One step of Node's `normalizeString`: process a segment against the stack
of already-resolved segments. -/
def normStep (isAbs : Bool) (acc : List (List Char)) (seg : List Char) : List (List Char) :=
  if seg == ([] : List Char) || seg == ['.'] then acc
  else if seg == ['.', '.'] then
    if !acc.isEmpty && acc.getLast? != some ['.', '.'] then acc.dropLast
    else if isAbs then acc
    else acc ++ [seg]
  else acc ++ [seg]

/-- Resolve all segments of a path. -/
def normSegsList (isAbs : Bool) (segs : List (List Char)) : List (List Char) :=
  segs.foldl (normStep isAbs) []

/-- `path.posix.normalize`. -/
def pathNormalize (s : String) : String :=
  match s.data with
  | [] => "."
  | c :: cs =>
    let isAbs := c == '/'
    let hasTrailing := (c :: cs).getLast? == some '/' && !cs.isEmpty
    let core := joinSegs (normSegsList isAbs (splitChar '/' (c :: cs)))
    if isAbs then
      ⟨'/' :: (core ++ (if hasTrailing && !core.isEmpty then ['/'] else []))⟩
    else if core.isEmpty then (if hasTrailing then "./" else ".")
    else ⟨core ++ (if hasTrailing then ['/'] else [])⟩

/-- `path.posix.join(a, b)` (two arguments). -/
def pathJoin (a b : String) : String :=
  if a == "" && b == "" then "."
  else if a == "" then pathNormalize b
  else if b == "" then pathNormalize a
  else pathNormalize ⟨a.data ++ '/' :: b.data⟩

/-! ## Requests, responses and the filesystem interface -/

/-- The fields of the inbound request the handler consumes.  `headers` is a
case-insensitive map in Node; the handler reads exactly the two keys below. -/
structure Request where
  xForwardedHost : Option String
  host : Option String
  url : String
deriving DecidableEq, Repr

/-- Classification of a thrown filesystem error by its `code` property, as the
source's catch block tests it (`'ENOENT'`, `'EACCES'`, anything else). -/
inductive FsError where
  | enoent
  | eacces
  | other
deriving DecidableEq, Repr

/-- The filesystem snapshot seen by one invocation: the three calls the
handler can make.  `existsSync` never throws; `statSync` and `readFileSync`
may throw, modelled by `Except`. -/
structure FS where
  existsSync : String → Bool
  statIsFile : String → Except FsError Bool
  readFile : String → Except FsError String

/-- A response body: `res.send(string)` or `res.json({error, code, message,
timestamp})`.  The `timestamp` field (`new Date().toISOString()`) depends on
the wall clock, not on the request, and is elided. -/
inductive Body where
  | html (content : String)
  | json (error : Bool) (code : Nat) (message : String)
deriving DecidableEq, Repr

/-- The response assembled through `setHeader` / `status` / `send` / `json`. -/
structure Response where
  status : Nat
  contentType : Option String
  cacheControl : Option String
  xPoweredBy : Option String
  body : Body
deriving DecidableEq, Repr

/-- A filesystem operation performed by the handler, in the order issued. -/
inductive FsOp where
  | existsCheck (p : String)
  | statCall (p : String)
  | readCall (p : String)
deriving DecidableEq, Repr

/-! ## The `send404` template and the response helpers

The template literal of `send404` has two interpolation points:
`${message}` and `${res.req?.headers?.host || '未知域名'}` (the *raw* `host`
header of the request).  It is embedded as three literal pieces (braces and
apostrophes appear as `\x7b`, `\x7d`, `\x27` escapes). -/

/-- Template text before `${message}`. -/
def nf404Pre : String :=
  "\n<!DOCTYPE html>\n<html lang=\x22zh-CN\x22>\n<head>\n    <meta charset=\x22UTF-8\x22>\n    <meta name=\x22viewport\x22 content=\x22width=device-width, initial-scale=1.0\x22>\n    <title>404 - 页面未找到</title>\n    <style>\n        body \x7b font-family: -apple-system, BlinkMacSystemFont, \x27Segoe UI\x27, Roboto, sans-serif; \n               background: linear-gradient(135deg, #667eea 0%, #764ba2 100%);\n               color: white; text-align: center; padding: 60px 20px; min-height: 100vh; \x7d\n        .container \x7b max-width: 600px; margin: 0 auto; \x7d\n        h1 \x7b font-size: 120px; margin: 0; opacity: 0.9; \x7d\n        h2 \x7b font-size: 28px; margin: 20px 0; \x7d\n        p \x7b font-size: 18px; margin-bottom: 30px; opacity: 0.8; \x7d\n        .btn \x7b display: inline-block; background: white; color: #764ba2; \n               padding: 12px 30px; border-radius: 50px; text-decoration: none; \n               font-weight: bold; margin: 10px; transition: transform 0.3s; \x7d\n        .btn:hover \x7b transform: translateY(-3px); \x7d\n        .domain \x7b background: rgba(255,255,255,0.1); padding: 10px 20px; \n                  border-radius: 10px; margin: 20px 0; font-family: monospace; \x7d\n    </style>\n</head>\n<body>\n    <div class=\x22container\x22>\n        <h1>404</h1>\n        <h2>"

/-- Template text between `${message}` and the domain interpolation. -/
def nf404Mid : String :=
  "</h2>\n        <p>您访问的域名页面暂时无法找到。</p>\n        <div class=\x22domain\x22>"

/-- Template text after the domain interpolation. -/
def nf404Post : String :=
  "</div>\n        <div>\n            <a href=\x22/\x22 class=\x22btn\x22>返回首页</a>\n            <a href=\x22https://vercel.com\x22 class=\x22btn\x22 target=\x22_blank\x22>技术支持</a>\n        </div>\n    </div>\n</body>\n</html>"

/-- The rendered `notFoundHtml` for a given message and shown domain. -/
def notFoundHtml (message domainShown : String) : String :=
  nf404Pre ++ message ++ nf404Mid ++ domainShown ++ nf404Post

/-- `send404(res, message)`: a 404 HTML page; the domain box shows
`res.req?.headers?.host || '未知域名'`, i.e. the raw `host` header. -/
def send404Resp (reqHostHeader : Option String) (message : String) : Response :=
  { status := 404
    contentType := some "text/html; charset=utf-8"
    cacheControl := some "no-cache, no-store, must-revalidate"
    xPoweredBy := none
    body := Body.html (notFoundHtml message (jsOr reqHostHeader "未知域名")) }

/-- `sendError(res, statusCode, message)`: a JSON error response. -/
def sendErrorResp (statusCode : Nat) (message : String) : Response :=
  { status := statusCode
    contentType := some "application/json"
    cacheControl := some "no-cache"
    xPoweredBy := none
    body := Body.json true statusCode message }

/-- `sendHtml(res, filePath, statusCode)`: read the file and answer with its
content; if `readFileSync` throws, the inner catch answers
`sendError(res, 500, '无法读取页面内容')`.  Also reports the read it issued. -/
def sendHtmlM (fs : FS) (filePath : String) (statusCode : Nat) : Response × List FsOp :=
  (match fs.readFile filePath with
   | Except.ok content =>
     { status := statusCode
       contentType := some "text/html; charset=utf-8"
       cacheControl := some "public, max-age=3600, stale-while-revalidate=7200"
       xPoweredBy := some "Vercel-Domain-Router/1.0"
       body := Body.html content }
   | Except.error _ => sendErrorResp 500 "无法读取页面内容",
   [FsOp.readCall filePath])

/-! ## The handler (first variant of `api/serve-domain.js`) -/

/-- The host candidate: `(req.headers['x-forwarded-host'] || req.headers.host
|| '').split(':')[0].replace(/^www\./i, '')`. -/
def computedHost (req : Request) : String :=
  stripWww (splitColonHead (jsOr req.xForwardedHost (jsOr req.host "")))

/-- Body of the first-variant handler after the host candidate has been
computed; `reqHostHeader` is the raw `host` header that `send404` echoes. -/
def handleFirstAux (fs : FS) (cwd host url : String) (reqHostHeader : Option String) :
    Response × List FsOp :=
  if host == "" || !regexTest1 host then
    (send404Resp reqHostHeader ("无效域名: " ++ host), [])
  else if strContains host ".." || strContains host "/" || strContains host "\\" then
    (send404Resp reqHostHeader "非法请求", [])
  else
    let siteDir := pathJoin cwd host
    let indexPath := pathJoin siteDir "index.html"
    let normalizedPath := pathNormalize indexPath
    if !strStartsWith normalizedPath cwd then
      (send404Resp reqHostHeader "非法路径访问", [])
    else if !fs.existsSync normalizedPath then
      let rootIndexPath := pathJoin cwd "index.html"
      if fs.existsSync rootIndexPath && url == "/" then
        ((sendHtmlM fs rootIndexPath 200).1,
         [FsOp.existsCheck normalizedPath, FsOp.existsCheck rootIndexPath] ++
           (sendHtmlM fs rootIndexPath 200).2)
      else
        (send404Resp reqHostHeader ("域名 \x22" ++ host ++ "\x22 的页面尚未创建"),
         [FsOp.existsCheck normalizedPath, FsOp.existsCheck rootIndexPath])
    else
      match fs.statIsFile normalizedPath with
      | Except.error e =>
        (match e with
         | FsError.enoent => send404Resp reqHostHeader "请求的资源不存在"
         | FsError.eacces => sendErrorResp 403 "没有访问权限"
         | FsError.other => sendErrorResp 500 "服务器内部错误",
         [FsOp.existsCheck normalizedPath, FsOp.statCall normalizedPath])
      | Except.ok isFile =>
        if !isFile then
          (send404Resp reqHostHeader "资源类型错误",
           [FsOp.existsCheck normalizedPath, FsOp.statCall normalizedPath])
        else
          ((sendHtmlM fs normalizedPath 200).1,
           [FsOp.existsCheck normalizedPath, FsOp.statCall normalizedPath] ++
             (sendHtmlM fs normalizedPath 200).2)

/-- `module.exports` (first variant): extract and clean the host, then run the
validation / path / serve pipeline.  The function is total: every filesystem
fault is consumed inside, so no exception reaches the hosting runtime. -/
def handleFirst (fs : FS) (cwd : String) (req : Request) : Response × List FsOp :=
  handleFirstAux fs cwd (computedHost req) req.url req.host

/-! ## The handler (second variant of `api/serve-domain.js`)

Its `www.`-strip uses `String.prototype.replace` with the *string* pattern
`'^www\.'` (which evaluates to the literal text `^www.`), not a regular
expression, so it only removes a literal occurrence of `^www.`. -/

/-- `module.exports` (second variant). -/
def handleSecond (fs : FS) (cwd : String) (req : Request) : Response × List FsOp :=
  let host := jsReplaceFirst (jsOr req.xForwardedHost (jsOr req.host "")) "^www." ""
  if host == "" || !regexTest2 host then
    ({ status := 400, contentType := none, cacheControl := none, xPoweredBy := none,
       body := Body.html "无效的域名请求。" }, [])
  else
    let filePath := pathJoin (pathJoin cwd host) "index.html"
    if fs.existsSync filePath then
      (match fs.readFile filePath with
       | Except.ok content =>
         { status := 200, contentType := some "text/html; charset=utf-8",
           cacheControl := none, xPoweredBy := none, body := Body.html content }
       | Except.error _ =>
         { status := 500, contentType := none, cacheControl := none, xPoweredBy := none,
           body := Body.html "服务器内部错误，无法读取页面。" },
       [FsOp.existsCheck filePath, FsOp.readCall filePath])
    else
      ({ status := 404, contentType := none, cacheControl := none, xPoweredBy := none,
         body := Body.html ("抱歉，域名 \x22" ++ host ++ "\x22 的展示页面尚未创建。") },
       [FsOp.existsCheck filePath])

/-! ## Well-formed paths

`process.cwd()` is an absolute, already-normalized path: a (nonempty) list of
plain segments.  The lemmas below show that splitting, normalizing and
rejoining such a path — which is what `path.join` / `path.normalize` do —
reproduces it, and that appending a plain segment appends it verbatim. -/

/-- A plain path segment: nonempty, not `.` or `..`, without `/`. -/
def PlainSeg (seg : List Char) : Prop :=
  seg ≠ [] ∧ seg ≠ ['.'] ∧ seg ≠ ['.', '.'] ∧ '/' ∉ seg

instance (seg : List Char) : Decidable (PlainSeg seg) := by
  unfold PlainSeg; infer_instance

/-- The absolute path with the given plain segments. -/
def mkAbs (segs : List (List Char)) : String :=
  ⟨'/' :: joinSegs segs⟩

/-- A well-formed working directory: a nonempty list of plain segments. -/
def WfCwd (segs : List (List Char)) : Prop :=
  segs ≠ [] ∧ ∀ s ∈ segs, PlainSeg s

/-! ## Concrete fixtures (working directory `/var/task`, the Vercel default) -/

/-- A concrete working directory. -/
def cwd0 : String := "/var/task"

/-- The segments of `cwd0`. -/
def segsVT : List (List Char) := [("var" : String).data, ("task" : String).data]

/-- A filesystem with no entries at all. -/
def emptyFS : FS :=
  { existsSync := fun _ => false
    statIsFile := fun _ => Except.error FsError.other
    readFile := fun _ => Except.error FsError.other }

/-- Only `/var/task/a..com/index.html` exists, as a readable regular file. -/
def fsSiteDots : FS :=
  { existsSync := fun p => p == "/var/task/a..com/index.html"
    statIsFile := fun p =>
      if p == "/var/task/a..com/index.html" then Except.ok true
      else Except.error FsError.other
    readFile := fun p =>
      if p == "/var/task/a..com/index.html" then Except.ok "<h1>dots</h1>"
      else Except.error FsError.enoent }

/-- Only `/var/task/example.com/index.html` exists, as a readable regular file. -/
def fsSite : FS :=
  { existsSync := fun p => p == "/var/task/example.com/index.html"
    statIsFile := fun p =>
      if p == "/var/task/example.com/index.html" then Except.ok true
      else Except.error FsError.other
    readFile := fun p =>
      if p == "/var/task/example.com/index.html" then Except.ok "<h1>site</h1>"
      else Except.error FsError.enoent }

/-- Only the root `/var/task/index.html` exists, as a readable regular file. -/
def fsLanding : FS :=
  { existsSync := fun p => p == "/var/task/index.html"
    statIsFile := fun p =>
      if p == "/var/task/index.html" then Except.ok true
      else Except.error FsError.other
    readFile := fun p =>
      if p == "/var/task/index.html" then Except.ok "<p>landing</p>"
      else Except.error FsError.enoent }

/-- `/var/task/example.com/index.html` exists but `statSync` throws `EACCES`. -/
def fsStatEacces : FS :=
  { existsSync := fun p => p == "/var/task/example.com/index.html"
    statIsFile := fun _ => Except.error FsError.eacces
    readFile := fun _ => Except.error FsError.eacces }

/-- `/var/task/example.com/index.html` exists and stats as a regular file, but
`readFileSync` throws (removed between check and read). -/
def fsReadFail : FS :=
  { existsSync := fun p => p == "/var/task/example.com/index.html"
    statIsFile := fun p =>
      if p == "/var/task/example.com/index.html" then Except.ok true
      else Except.error FsError.other
    readFile := fun _ => Except.error FsError.enoent }

end DomainRouter

namespace DomainRouter

theorem splitAux_append_of_not_mem {sep : Char} :
    ∀ {l₁ : List Char}, sep ∉ l₁ → ∀ (l₂ acc : List Char),
      splitAux sep (l₁ ++ l₂) acc = splitAux sep l₂ (l₁.reverse ++ acc) := by
  intro l₁
  induction l₁ with
  | nil => intro _ l₂ acc; simp
  | cons c cs ih =>
    intro h l₂ acc
    have hc : ¬(c == sep) = true := by
      simp only [beq_iff_eq]
      exact fun hcc => h (hcc ▸ List.mem_cons_self c cs)
    simp only [List.cons_append, splitAux, if_neg hc, List.append_eq]
    rw [ih (fun hm => h (List.mem_cons_of_mem _ hm))]
    simp

theorem splitChar_of_not_mem {sep : Char} {l : List Char} (h : sep ∉ l) :
    splitChar sep l = [l] := by
  have h0 := splitAux_append_of_not_mem h [] []
  simpa [splitChar, splitAux] using h0

theorem splitChar_sep_cons (sep : Char) (l : List Char) :
    splitChar sep (sep :: l) = [] :: splitChar sep l := by
  simp [splitChar, splitAux]

theorem splitChar_append_sep {sep : Char} {l₁ : List Char} (h : sep ∉ l₁) (l₂ : List Char) :
    splitChar sep (l₁ ++ sep :: l₂) = l₁ :: splitChar sep l₂ := by
  unfold splitChar
  rw [splitAux_append_of_not_mem h]
  simp [splitAux]

theorem joinSegs_cons_cons (s t : List Char) (rest : List (List Char)) :
    joinSegs (s :: t :: rest) = s ++ '/' :: joinSegs (t :: rest) := rfl

theorem splitChar_joinSegs_append (b : List Char) :
    ∀ (segs : List (List Char)), segs ≠ [] → (∀ s ∈ segs, '/' ∉ s) →
      splitChar '/' (joinSegs segs ++ '/' :: b) = segs ++ splitChar '/' b := by
  intro segs
  induction segs with
  | nil => intro h; exact absurd rfl h
  | cons s rest ih =>
    intro _ hfree
    cases rest with
    | nil =>
      simp only [joinSegs]
      rw [splitChar_append_sep (hfree s (by simp))]
      simp
    | cons t ts =>
      rw [joinSegs_cons_cons]
      have hassoc : (s ++ '/' :: joinSegs (t :: ts)) ++ '/' :: b =
          s ++ '/' :: (joinSegs (t :: ts) ++ '/' :: b) := by simp
      rw [hassoc, splitChar_append_sep (hfree s (by simp))]
      rw [ih (by simp) (fun x hx => hfree x (List.mem_cons_of_mem _ hx))]
      simp

theorem splitChar_joinSegs :
    ∀ (segs : List (List Char)), segs ≠ [] → (∀ s ∈ segs, '/' ∉ s) →
      splitChar '/' (joinSegs segs) = segs := by
  intro segs
  induction segs with
  | nil => intro h; exact absurd rfl h
  | cons s rest ih =>
    intro _ hfree
    cases rest with
    | nil => simpa [joinSegs] using splitChar_of_not_mem (hfree s (by simp))
    | cons t ts =>
      rw [joinSegs_cons_cons, splitChar_append_sep (hfree s (by simp))]
      rw [ih (by simp) (fun x hx => hfree x (List.mem_cons_of_mem _ hx))]

theorem normStep_plain {seg : List Char} (h : PlainSeg seg) (isAbs : Bool)
    (acc : List (List Char)) : normStep isAbs acc seg = acc ++ [seg] := by
  obtain ⟨h1, h2, h3, _⟩ := h
  simp [normStep, h1, h2, h3]

theorem foldl_normStep_plain (isAbs : Bool) :
    ∀ (segs : List (List Char)), (∀ s ∈ segs, PlainSeg s) → ∀ acc,
      List.foldl (normStep isAbs) acc segs = acc ++ segs := by
  intro segs
  induction segs with
  | nil => intro _ acc; simp
  | cons s rest ih =>
    intro hp acc
    rw [List.foldl_cons, normStep_plain (hp s (by simp))]
    rw [ih (fun x hx => hp x (List.mem_cons_of_mem _ hx))]
    simp

theorem normSegsList_nil_cons (isAbs : Bool) (segs : List (List Char))
    (hp : ∀ s ∈ segs, PlainSeg s) : normSegsList isAbs ([] :: segs) = segs := by
  unfold normSegsList
  rw [List.foldl_cons]
  have h0 : normStep isAbs [] [] = [] := by simp [normStep]
  rw [h0, foldl_normStep_plain _ _ hp]
  simp

theorem joinSegs_append :
    ∀ (S : List (List Char)), S ≠ [] → ∀ (T : List (List Char)), T ≠ [] →
      joinSegs (S ++ T) = joinSegs S ++ '/' :: joinSegs T := by
  intro S
  induction S with
  | nil => intro h; exact absurd rfl h
  | cons s rest ih =>
    intro _ T hT
    cases rest with
    | nil =>
      cases T with
      | nil => exact absurd rfl hT
      | cons t ts => simp [joinSegs_cons_cons, joinSegs]
    | cons t ts =>
      have h1 : (s :: t :: ts) ++ T = s :: t :: (ts ++ T) := rfl
      have h2 : t :: (ts ++ T) = (t :: ts) ++ T := rfl
      rw [h1, joinSegs_cons_cons, h2, ih (by simp) T hT, joinSegs_cons_cons]
      simp

theorem joinSegs_ne_nil :
    ∀ (segs : List (List Char)), segs ≠ [] → (∀ s ∈ segs, PlainSeg s) →
      joinSegs segs ≠ [] := by
  intro segs
  cases segs with
  | nil => intro h; exact absurd rfl h
  | cons s rest =>
    intro _ hp
    cases rest with
    | nil => exact (hp s (by simp)).1
    | cons t ts =>
      rw [joinSegs_cons_cons]
      intro hcontra
      have := List.append_eq_nil.mp hcontra
      exact List.cons_ne_nil _ _ this.2

theorem getLast?_joinSegs_ne_slash :
    ∀ (segs : List (List Char)), segs ≠ [] → (∀ s ∈ segs, PlainSeg s) →
      (joinSegs segs).getLast? ≠ some '/' := by
  intro segs
  induction segs with
  | nil => intro h; exact absurd rfl h
  | cons s rest ih =>
    intro _ hp
    cases rest with
    | nil =>
      intro hlast
      have hl : s.getLast? = some '/' := by simpa [joinSegs] using hlast
      have hmem : '/' ∈ s := List.mem_of_mem_getLast? (Option.mem_def.mpr hl)
      exact (hp s (by simp)).2.2.2 hmem
    | cons t ts =>
      rw [joinSegs_cons_cons]
      have hX : joinSegs (t :: ts) ≠ [] :=
        joinSegs_ne_nil _ (by simp) (fun x hx => hp x (List.mem_cons_of_mem _ hx))
      obtain ⟨y, hy⟩ : ∃ y, (joinSegs (t :: ts)).getLast? = some y := by
        cases hEq : (joinSegs (t :: ts)).getLast? with
        | none => exact absurd (List.getLast?_eq_none_iff.mp hEq) hX
        | some y => exact ⟨y, rfl⟩
      have hcons : ('/' :: joinSegs (t :: ts)).getLast? = some y := by
        have : ('/' :: joinSegs (t :: ts)) = ['/'] ++ joinSegs (t :: ts) := rfl
        rw [this, List.getLast?_append, hy]
        rfl
      rw [List.getLast?_append, hcons]
      intro hcontra
      have hya : some y = some '/' := by simpa [Option.or] using hcontra
      exact ih (by simp) (fun x hx => hp x (List.mem_cons_of_mem _ hx)) (hy.trans hya)

theorem getLast?_cons_of_ne_nil {α : Type} {a : α} {l : List α} (h : l ≠ []) :
    (a :: l).getLast? = l.getLast? := by
  obtain ⟨y, hy⟩ : ∃ y, l.getLast? = some y := by
    cases hEq : l.getLast? with
    | none => exact absurd (List.getLast?_eq_none_iff.mp hEq) h
    | some y => exact ⟨y, rfl⟩
  have hl : (a :: l) = [a] ++ l := rfl
  rw [hl, List.getLast?_append, hy]
  rfl

/-- Normalizing an absolute path made of plain segments returns it unchanged. -/
theorem pathNormalize_mkAbs (segs : List (List Char)) (h : WfCwd segs) :
    pathNormalize (mkAbs segs) = mkAbs segs := by
  obtain ⟨hne, hp⟩ := h
  have hfree : ∀ s ∈ segs, '/' ∉ s := fun s hs => (hp s hs).2.2.2
  have hX : joinSegs segs ≠ [] := joinSegs_ne_nil segs hne hp
  have hlastF : ((joinSegs segs).getLast? == some '/') = false :=
    beq_eq_false_iff_ne.mpr (getLast?_joinSegs_ne_slash segs hne hp)
  show pathNormalize ⟨'/' :: joinSegs segs⟩ = _
  simp only [pathNormalize]
  rw [splitChar_sep_cons, splitChar_joinSegs segs hne hfree]
  simp only [show ('/' == '/') = true from rfl]
  rw [normSegsList_nil_cons true segs hp, getLast?_cons_of_ne_nil hX]
  simp [hlastF, mkAbs]

/-- Appending one segment to an absolute path, at the level of raw data. -/
theorem mkAbs_snoc (segs : List (List Char)) (hne : segs ≠ []) (b : List Char) :
    (⟨(mkAbs segs).data ++ '/' :: b⟩ : String) = mkAbs (segs ++ [b]) := by
  apply String.ext
  show ('/' :: joinSegs segs) ++ '/' :: b = '/' :: joinSegs (segs ++ [b])
  rw [joinSegs_append segs hne [b] (by simp)]
  simp [joinSegs]

/-- `path.join` of a well-formed absolute directory and a plain segment is
plain concatenation. -/
theorem pathJoin_mkAbs (segs : List (List Char)) (h : WfCwd segs) (b : String)
    (hb : PlainSeg b.data) : pathJoin (mkAbs segs) b = mkAbs (segs ++ [b.data]) := by
  obtain ⟨hne, hp⟩ := h
  have h1 : (mkAbs segs == "") = false :=
    beq_eq_false_iff_ne.mpr (fun hq => by
      have hd := congrArg String.data hq
      simp [mkAbs] at hd)
  have h2 : (b == "") = false :=
    beq_eq_false_iff_ne.mpr (fun hq => hb.1 (by simp [hq]))
  simp only [pathJoin, h1, h2, Bool.false_and, Bool.and_false, if_false, Bool.false_eq_true,
    if_neg]
  rw [mkAbs_snoc segs hne b.data]
  refine pathNormalize_mkAbs _ ⟨by simp, ?_⟩
  intro s hs
  rcases List.mem_append.mp hs with hs | hs
  · exact hp s hs
  · simpa using List.mem_singleton.mp hs ▸ hb

/-- A longer well-formed absolute path string-starts-with a shorter one. -/
theorem strStartsWith_mkAbs_append (S T : List (List Char)) (hS : S ≠ []) (hT : T ≠ []) :
    strStartsWith (mkAbs (S ++ T)) (mkAbs S) = true := by
  unfold strStartsWith
  rw [ List.isPrefixOf_iff_prefix]
  show (mkAbs S).data <+: (mkAbs (S ++ T)).data
  simp only [mkAbs]
  rw [joinSegs_append S hS T hT]
  exact ⟨'/' :: joinSegs T, by simp⟩

/-- The resolved per-host index path, written as plain string concatenation. -/
theorem mkAbs_host_index (segs : List (List Char)) (hne : segs ≠ []) (h : String) :
    mkAbs (segs ++ [h.data, "index.html".data]) = mkAbs segs ++ "/" ++ h ++ "/index.html" := by
  apply String.ext
  have hpair : joinSegs [h.data, "index.html".data] = h.data ++ '/' :: "index.html".data := rfl
  rw [show (mkAbs (segs ++ [h.data, "index.html".data])).data
      = '/' :: joinSegs (segs ++ [h.data, "index.html".data]) from rfl]
  rw [joinSegs_append segs hne [h.data, "index.html".data] (by simp), hpair]
  simp [String.data_append, mkAbs]

/-- The root fallback path, written as plain string concatenation. -/
theorem mkAbs_root_index (segs : List (List Char)) (hne : segs ≠ []) :
    mkAbs (segs ++ ["index.html".data]) = mkAbs segs ++ "/index.html" := by
  apply String.ext
  rw [show (mkAbs (segs ++ ["index.html".data])).data
      = '/' :: joinSegs (segs ++ ["index.html".data]) from rfl]
  rw [joinSegs_append segs hne ["index.html".data] (by simp)]
  simp [String.data_append, mkAbs, joinSegs]

/-! ## Consequences of passing the validation regex -/

theorem isHostCharI_of_alphaI {c : Char} (h : isAlphaI c = true) : isHostCharI c = true := by
  simp [isHostCharI, isAlnumI, h]

theorem isHostCharI_of_alnumI {c : Char} (h : isAlnumI c = true) : isHostCharI c = true := by
  simp [isHostCharI, h]

/-- A host accepted by the first variant's regex starts with an alphanumeric
character and consists only of characters from `[a-z0-9.-]` (either case). -/
theorem regexTest1_spec {s : String} (h : regexTest1 s = true) :
    (∃ c rest, s.data = c :: rest ∧ isAlnumI c = true) ∧
      ∀ c ∈ s.data, isHostCharI c = true := by
  cases hd : s.data with
  | nil =>
    simp only [regexTest1, hd] at h
    exact absurd h (by simp)
  | cons c rest =>
    simp only [regexTest1, hd, Bool.and_eq_true] at h
    obtain ⟨hhead, hany⟩ := h
    obtain ⟨i, _, hfi⟩ := List.any_eq_true.mp hany
    constructor
    · exact ⟨c, rest, rfl, hhead⟩
    · intro x hx
      rcases List.mem_cons.mp hx with hxc | hxrest
      · exact hxc ▸ isHostCharI_of_alnumI hhead
      · split at hfi
        next tld heq =>
          simp only [Bool.and_eq_true] at hfi
          obtain ⟨⟨hmid, _⟩, htld⟩ := hfi
          have hsplit : rest.take i ++ rest.drop i = rest := List.take_append_drop i rest
          rcases List.mem_append.mp (hsplit ▸ hxrest) with hxt | hxd
          · exact List.all_eq_true.mp hmid x hxt
          · rcases List.mem_cons.mp (heq ▸ hxd) with hxdot | hxtld
            · subst hxdot; decide
            · exact isHostCharI_of_alphaI (List.all_eq_true.mp htld x hxtld)
        next => simp at hfi

/-- A regex-accepted host is a plain path segment. -/
theorem regexTest1_plain {s : String} (h : regexTest1 s = true) : PlainSeg s.data := by
  obtain ⟨⟨c, rest, hd, hhead⟩, hall⟩ := regexTest1_spec h
  rw [hd]
  refine ⟨by simp, ?_, ?_, ?_⟩
  · intro hq
    have hc : c = '.' := ((List.cons.injEq c rest '.' []).mp hq).1
    rw [hc] at hhead
    exact absurd hhead (by decide)
  · intro hq
    have hc : c = '.' := ((List.cons.injEq c rest '.' ['.']).mp hq).1
    rw [hc] at hhead
    exact absurd hhead (by decide)
  · intro hm
    have hh := hall '/' (by rw [hd]; exact hm)
    exact absurd hh (by decide)

theorem regexTest1_ne_empty {s : String} (h : regexTest1 s = true) : (s == "") = false := by
  refine beq_eq_false_iff_ne.mpr (fun hq => ?_)
  have := (regexTest1_plain h).1
  simp [hq] at this

theorem listHasSub_singleton (a : Char) :
    ∀ (l : List Char), listHasSub [a] l = true ↔ a ∈ l := by
  intro l
  induction l with
  | nil => simp [listHasSub]
  | cons c cs ih =>
    simp only [listHasSub]
    rw [Bool.or_eq_true, ih]
    have hpre : ([a].isPrefixOf (c :: cs)) = (a == c) := by simp [List.isPrefixOf]
    rw [hpre]
    simp [List.mem_cons, beq_iff_eq]

/-- A regex-accepted host contains neither `/` nor `\`. -/
theorem regexTest1_no_slash {s : String} (h : regexTest1 s = true) :
    strContains s "/" = false ∧ strContains s "\\" = false := by
  have hall := (regexTest1_spec h).2
  constructor
  · show listHasSub ['/'] s.data = false
    refine Bool.eq_false_iff.mpr (fun hq => ?_)
    have hm := (listHasSub_singleton '/' s.data).mp hq
    have := hall '/' hm
    exact absurd this (by decide)
  · show listHasSub ['\\'] s.data = false
    refine Bool.eq_false_iff.mpr (fun hq => ?_)
    have hm := (listHasSub_singleton '\\' s.data).mp hq
    have := hall '\\' hm
    exact absurd this (by decide)

/-! ## Evaluating the handler on a validated host -/

/-- On a well-formed working directory, a host that passes the regex and the
substring blacklist sails through validation and the containment check, and the
handler continues with the plainly-concatenated per-host index path. -/
theorem handleFirstAux_good (fs : FS) (segs : List (List Char)) (hw : WfCwd segs)
    (host : String) (hreg : regexTest1 host = true)
    (hdots : strContains host ".." = false) (url : String) (hdr : Option String) :
    handleFirstAux fs (mkAbs segs) host url hdr =
      (let p := mkAbs (segs ++ [host.data, "index.html".data])
       let rootP := mkAbs (segs ++ ["index.html".data])
       if !fs.existsSync p then
         if fs.existsSync rootP && url == "/" then
           ((sendHtmlM fs rootP 200).1,
            [FsOp.existsCheck p, FsOp.existsCheck rootP] ++ (sendHtmlM fs rootP 200).2)
         else
           (send404Resp hdr ("域名 \x22" ++ host ++ "\x22 的页面尚未创建"),
            [FsOp.existsCheck p, FsOp.existsCheck rootP])
       else
         match fs.statIsFile p with
         | Except.error e =>
           (match e with
            | FsError.enoent => send404Resp hdr "请求的资源不存在"
            | FsError.eacces => sendErrorResp 403 "没有访问权限"
            | FsError.other => sendErrorResp 500 "服务器内部错误",
            [FsOp.existsCheck p, FsOp.statCall p])
         | Except.ok isFile =>
           if !isFile then
             (send404Resp hdr "资源类型错误", [FsOp.existsCheck p, FsOp.statCall p])
           else
             ((sendHtmlM fs p 200).1,
              [FsOp.existsCheck p, FsOp.statCall p] ++ (sendHtmlM fs p 200).2)) := by
  obtain ⟨hne, hp⟩ := hw
  have hplain : PlainSeg host.data := regexTest1_plain hreg
  have hplainIdx : PlainSeg ("index.html" : String).data := by decide
  have h1 : (host == "" || !regexTest1 host) = false := by
    simp [regexTest1_ne_empty hreg, hreg]
  have hsl := regexTest1_no_slash hreg
  have h2 : (strContains host ".." || strContains host "/" || strContains host "\\") = false := by
    simp [hdots, hsl.1, hsl.2]
  have wf1 : WfCwd (segs ++ [host.data]) := by
    refine ⟨by simp, fun s hs => ?_⟩
    rcases List.mem_append.mp hs with hs | hs
    · exact hp s hs
    · simpa using List.mem_singleton.mp hs ▸ hplain
  have wf2 : WfCwd (segs ++ [host.data, ("index.html" : String).data]) := by
    refine ⟨by simp, fun s hs => ?_⟩
    rcases List.mem_append.mp hs with hs | hs
    · exact hp s hs
    · rcases List.mem_cons.mp hs with hs | hs
      · exact hs ▸ hplain
      · simpa using List.mem_singleton.mp hs ▸ hplainIdx
  have hjoin1 : pathJoin (mkAbs segs) host = mkAbs (segs ++ [host.data]) :=
    pathJoin_mkAbs segs ⟨hne, hp⟩ host hplain
  have hjoin2 : pathJoin (mkAbs (segs ++ [host.data])) "index.html" =
      mkAbs (segs ++ [host.data, ("index.html" : String).data]) := by
    rw [pathJoin_mkAbs _ wf1 _ hplainIdx]
    simp
  have hnorm : pathNormalize (mkAbs (segs ++ [host.data, ("index.html" : String).data])) =
      mkAbs (segs ++ [host.data, ("index.html" : String).data]) :=
    pathNormalize_mkAbs _ wf2
  have hroot : pathJoin (mkAbs segs) "index.html" = mkAbs (segs ++ [("index.html" : String).data]) :=
    pathJoin_mkAbs segs ⟨hne, hp⟩ _ hplainIdx
  have hsw : strStartsWith (mkAbs (segs ++ [host.data, ("index.html" : String).data]))
      (mkAbs segs) = true :=
    strStartsWith_mkAbs_append segs [host.data, ("index.html" : String).data] hne (by simp)
  simp only [handleFirstAux, h1, h2, hjoin1, hjoin2, hnorm, hroot, hsw,
    Bool.false_eq_true, if_false, Bool.not_true, Bool.or_self]

/-- A run inside the middle part of a concatenation is a run of the whole. -/
theorem infix_of_middle {x m : List Char} (h : x <:+: m) (l r : List Char) :
    x <:+: l ++ (m ++ r) := by
  obtain ⟨s, t, hst⟩ := h
  exact ⟨l ++ s, t ++ r, by rw [← hst]; simp⟩

/-! ## Claim C1 -/

/-- C1 counterexample: the host `a..com` passes the validation pattern
(`regexTest1`), and `/var/task/a..com/index.html` exists as a readable regular
file, yet the handler answers 404 — the substring blacklist rejects the host
before any filesystem access — so "passes the validation pattern + file
exists" does not imply a 200 with the file's content. -/
theorem c1_counterexample :
    regexTest1 "a..com" = true ∧
    fsSiteDots.existsSync "/var/task/a..com/index.html" = true ∧
    fsSiteDots.statIsFile "/var/task/a..com/index.html" = Except.ok true ∧
    fsSiteDots.readFile "/var/task/a..com/index.html" = Except.ok "<h1>dots</h1>" ∧
    (handleFirst fsSiteDots cwd0 ⟨none, some "a..com", "/"⟩).1.status = 404 := by
  refine ⟨by decide, by decide, by rfl, by rfl, by decide⟩

/-- C1 (amended): for every host that passes the validation pattern *and does
not contain `..`* (so it also passes the substring blacklist), if
`<working-directory>/<host>/index.html` exists, is a regular file, and is
readable with content `content`, then `handle(request)` returns status 200
whose body is exactly that content, unchanged, for every requested URL path. -/
theorem c1_amended_valid_host_serves_file (segs : List (List Char)) (hw : WfCwd segs)
    (req : Request) (fs : FS) (content : String)
    (hreg : regexTest1 (computedHost req) = true)
    (hdots : strContains (computedHost req) ".." = false)
    (hex : fs.existsSync (mkAbs segs ++ "/" ++ computedHost req ++ "/index.html") = true)
    (hstat : fs.statIsFile (mkAbs segs ++ "/" ++ computedHost req ++ "/index.html") =
      Except.ok true)
    (hread : fs.readFile (mkAbs segs ++ "/" ++ computedHost req ++ "/index.html") =
      Except.ok content) :
    (handleFirst fs (mkAbs segs) req).1.status = 200 ∧
    (handleFirst fs (mkAbs segs) req).1.body = Body.html content := by
  rw [← mkAbs_host_index segs hw.1 (computedHost req)] at hex hstat hread
  unfold handleFirst
  rw [handleFirstAux_good fs segs hw (computedHost req) hreg hdots req.url req.host]
  simp [hex, hstat, hread, sendHtmlM]

/-- Concrete instance of the C1 amendment: `example.com` with an existing
readable site file is served with status 200 and the exact content. -/
theorem c1_amended_witness :
    (handleFirst fsSite (mkAbs segsVT) ⟨none, some "example.com", "/any/path"⟩).1.status = 200 ∧
    (handleFirst fsSite (mkAbs segsVT) ⟨none, some "example.com", "/any/path"⟩).1.body =
      Body.html "<h1>site</h1>" :=
  c1_amended_valid_host_serves_file segsVT ⟨by decide, by decide⟩
    ⟨none, some "example.com", "/any/path"⟩ fsSite "<h1>site</h1>"
    (by decide) (by decide) (by decide) (by rfl) (by rfl)

/-! ## Claim C2 -/

/-- C2: whenever the extracted host candidate contains `..`, `/` or `\`, the
handler answers with status 404 and performs no filesystem operation at all
(empty operation trace): candidates with `/` or `\` already fail the
validation regex, and candidates with `..` that pass it are stopped by the
substring blacklist; both rejections happen before any filesystem call. -/
theorem c2_traversal_hosts_404_no_fs (fs : FS) (cwd : String) (req : Request)
    (h : strContains (computedHost req) ".." = true ∨
         strContains (computedHost req) "/" = true ∨
         strContains (computedHost req) "\\" = true) :
    (handleFirst fs cwd req).1.status = 404 ∧ (handleFirst fs cwd req).2 = [] := by
  unfold handleFirst
  by_cases hreg : regexTest1 (computedHost req) = true
  · have h1 : (computedHost req == "" || !regexTest1 (computedHost req)) = false := by
      simp [regexTest1_ne_empty hreg, hreg]
    have h2 : (strContains (computedHost req) ".." || strContains (computedHost req) "/" ||
        strContains (computedHost req) "\\") = true := by
      rcases h with h | h | h <;> simp [h]
    simp [handleFirstAux, h1, h2, send404Resp]
  · have hf : regexTest1 (computedHost req) = false := Bool.eq_false_iff.mpr hreg
    have h1 : (computedHost req == "" || !regexTest1 (computedHost req)) = true := by
      simp [hf]
    simp [handleFirstAux, h1, send404Resp]

/-- Concrete instance of C2: host `a/b.com` is rejected with 404 and an empty
filesystem trace. -/
theorem c2_witness :
    (handleFirst emptyFS cwd0 ⟨none, some "a/b.com", "/"⟩).1.status = 404 ∧
    (handleFirst emptyFS cwd0 ⟨none, some "a/b.com", "/"⟩).2 = [] :=
  c2_traversal_hosts_404_no_fs emptyFS cwd0 ⟨none, some "a/b.com", "/"⟩
    (Or.inr (Or.inl (by decide)))

/-! ## Claim C4 -/

/-- C4 counterexample: `a..com` contains the substring `..` yet passes the
validation regex, so the substring blacklist does reject a candidate the regex
accepts — the blacklist is not subsumed by the regex. -/
theorem c4_counterexample :
    regexTest1 "a..com" = true ∧ strContains "a..com" ".." = true :=
  ⟨by decide, by decide⟩

/-- C4 (amended): the validation regex does exclude `/` and `\` — every host
candidate containing either fails it — but candidates containing `..` can
pass the regex (e.g. `a..com`), so for `..` the substring blacklist rejects
hosts the regex accepts and is an independent safety layer. -/
theorem c4_amended_regex_excludes_slashes (h : String) (hreg : regexTest1 h = true) :
    strContains h "/" = false ∧ strContains h "\\" = false :=
  regexTest1_no_slash hreg

/-- Concrete instance of the C4 amendment at `example.com`. -/
theorem c4_amended_witness :
    regexTest1 "example.com" = true ∧
    (strContains "example.com" "/" = false ∧ strContains "example.com" "\\" = false) :=
  ⟨by decide, c4_amended_regex_excludes_slashes "example.com" (by decide)⟩

/-! ## Claim C3 -/

/-- C3 counterexample: host `a..com` (raw `host` header) is rejected at the
blacklist stage, the message is the generic `非法请求` — and yet the rendered
404 page embeds the raw host `a..com`, whose unsafe characters `..` therefore
appear in the response body.  So a 404 body is not limited to validated host
text or a generic message. -/
theorem c3_counterexample :
    (handleFirst emptyFS cwd0 ⟨none, some "a..com", "/"⟩).1.status = 404 ∧
    (handleFirst emptyFS cwd0 ⟨none, some "a..com", "/"⟩).1.body =
      Body.html (notFoundHtml "非法请求" "a..com") ∧
    ('.' :: '.' :: []) <:+: (notFoundHtml "非法请求" "a..com").data := by
  refine ⟨by decide, by rfl, ?_⟩
  have hmid : ('.' :: '.' :: []) <:+: ("a..com" : String).data :=
    ⟨['a'], ['c', 'o', 'm'], by decide⟩
  have hstep : (notFoundHtml "非法请求" "a..com").data =
      (nf404Pre ++ "非法请求" ++ nf404Mid).data ++
        (("a..com" : String).data ++ nf404Post.data) := by
    simp [notFoundHtml, String.data_append, List.append_assoc]
  rw [hstep]
  exact infix_of_middle hmid _ _

/-- C3 (amended): when the host is rejected at the blacklist stage (it passed
the regex but contains `..`), the 404 *message* is the generic `非法请求`;
however the rendered page also embeds the raw `host` header verbatim in its
domain box, so the response body still contains the unvalidated host text.
The invalid-format branch likewise echoes the rejected host in its message. -/
theorem c3_amended_blacklist_generic_message_raw_domain (fs : FS) (cwd : String)
    (req : Request) (hreg : regexTest1 (computedHost req) = true)
    (hdots : strContains (computedHost req) ".." = true) :
    (handleFirst fs cwd req).1 = send404Resp req.host "非法请求" ∧
    (jsOr req.host "未知域名").data <:+:
      (notFoundHtml "非法请求" (jsOr req.host "未知域名")).data := by
  constructor
  · have h1 : (computedHost req == "" || !regexTest1 (computedHost req)) = false := by
      simp [regexTest1_ne_empty hreg, hreg]
    have h2 : (strContains (computedHost req) ".." || strContains (computedHost req) "/" ||
        strContains (computedHost req) "\\") = true := by simp [hdots]
    simp [handleFirst, handleFirstAux, h1, h2]
  · have hstep : (notFoundHtml "非法请求" (jsOr req.host "未知域名")).data =
        (nf404Pre ++ "非法请求" ++ nf404Mid).data ++
          ((jsOr req.host "未知域名").data ++ nf404Post.data) := by
      simp [notFoundHtml, String.data_append, List.append_assoc]
    rw [hstep]
    exact infix_of_middle (List.infix_refl _) _ _

/-- Concrete instance of the C3 amendment at host `b..co`. -/
theorem c3_amended_witness :
    (handleFirst emptyFS cwd0 ⟨none, some "b..co", "/"⟩).1 =
      send404Resp (some "b..co") "非法请求" ∧
    (jsOr (some "b..co") "未知域名").data <:+:
      (notFoundHtml "非法请求" (jsOr (some "b..co") "未知域名")).data :=
  c3_amended_blacklist_generic_message_raw_domain emptyFS cwd0 ⟨none, some "b..co", "/"⟩
    (by decide) (by decide)

/-! ## Claim C5 -/

/-- C5: for a validated host (passes regex and blacklist) whose
`<working-directory>/<host>/index.html` does not exist: if the requested URL
is exactly `/` and the root `<working-directory>/index.html` exists (readable
with content `content`), the handler returns 200 with that content; for any
other URL, or when the root index file does not exist, it returns the 404 page
whose message embeds the validated host. -/
theorem c5_root_fallback (segs : List (List Char)) (hw : WfCwd segs) (req : Request)
    (fs : FS) (content : String)
    (hreg : regexTest1 (computedHost req) = true)
    (hdots : strContains (computedHost req) ".." = false)
    (hex : fs.existsSync (mkAbs segs ++ "/" ++ computedHost req ++ "/index.html") = false) :
    (req.url = "/" → fs.existsSync (mkAbs segs ++ "/index.html") = true →
      fs.readFile (mkAbs segs ++ "/index.html") = Except.ok content →
      (handleFirst fs (mkAbs segs) req).1.status = 200 ∧
      (handleFirst fs (mkAbs segs) req).1.body = Body.html content) ∧
    (req.url ≠ "/" ∨ fs.existsSync (mkAbs segs ++ "/index.html") = false →
      (handleFirst fs (mkAbs segs) req).1 =
        send404Resp req.host ("域名 \x22" ++ computedHost req ++ "\x22 的页面尚未创建") ∧
      (computedHost req).data <:+:
        ("域名 \x22" ++ computedHost req ++ "\x22 的页面尚未创建").data) := by
  rw [← mkAbs_host_index segs hw.1 (computedHost req)] at hex
  have hroot := mkAbs_root_index segs hw.1
  constructor
  · intro hurl hrex hrread
    rw [← hroot] at hrex hrread
    unfold handleFirst
    rw [handleFirstAux_good fs segs hw (computedHost req) hreg hdots req.url req.host]
    have hcond : (fs.existsSync (mkAbs (segs ++ [("index.html" : String).data])) &&
        req.url == "/") = true := by simp [hrex, hurl]
    simp [hex, hcond, sendHtmlM, hrread]
  · intro hside
    have hcond : (fs.existsSync (mkAbs (segs ++ [("index.html" : String).data])) &&
        req.url == "/") = false := by
      rcases hside with hu | hr
      · simp [hu]
      · rw [← hroot] at hr
        simp [hr]
    constructor
    · unfold handleFirst
      rw [handleFirstAux_good fs segs hw (computedHost req) hreg hdots req.url req.host]
      simp [hex, hcond]
    · have hstep : (("域名 \x22" ++ computedHost req ++ "\x22 的页面尚未创建") : String).data =
          ("域名 \x22" : String).data ++
            ((computedHost req).data ++ ("\x22 的页面尚未创建" : String).data) := by
        simp [String.data_append, List.append_assoc]
      rw [hstep]
      exact infix_of_middle (List.infix_refl _) _ _

/-- Concrete instances of C5: `example.com` with no site directory — a root
request serves the landing page, a non-root request gets the 404 page. -/
theorem c5_witness :
    ((handleFirst fsLanding (mkAbs segsVT) ⟨none, some "example.com", "/"⟩).1.status = 200 ∧
     (handleFirst fsLanding (mkAbs segsVT) ⟨none, some "example.com", "/"⟩).1.body =
       Body.html "<p>landing</p>") ∧
    ((handleFirst fsLanding (mkAbs segsVT) ⟨none, some "example.com", "/about"⟩).1 =
       send404Resp (some "example.com")
         ("域名 \x22" ++ computedHost ⟨none, some "example.com", "/about"⟩ ++
           "\x22 的页面尚未创建") ∧
     (computedHost ⟨none, some "example.com", "/about"⟩).data <:+:
       ("域名 \x22" ++ computedHost ⟨none, some "example.com", "/about"⟩ ++
         "\x22 的页面尚未创建").data) := by
  constructor
  · exact (c5_root_fallback segsVT ⟨by decide, by decide⟩ ⟨none, some "example.com", "/"⟩
      fsLanding "<p>landing</p>" (by decide) (by decide) (by decide)).1 rfl (by decide) (by rfl)
  · exact (c5_root_fallback segsVT ⟨by decide, by decide⟩ ⟨none, some "example.com", "/about"⟩
      fsLanding "<p>landing</p>" (by decide) (by decide) (by decide)).2 (Or.inl (by decide))

/-! ## Claim C6 -/

/-- C6: every request whose host candidate is empty or fails the validation
regex gets the 404-status `无效域名` HTML page — in particular the status is
404 and not 400. -/
theorem c6_invalid_host_404_page (fs : FS) (cwd : String) (req : Request)
    (h : computedHost req = "" ∨ regexTest1 (computedHost req) = false) :
    (handleFirst fs cwd req).1 =
      send404Resp req.host ("无效域名: " ++ computedHost req) ∧
    (handleFirst fs cwd req).1.status = 404 ∧
    (handleFirst fs cwd req).1.status ≠ 400 := by
  have h1 : (computedHost req == "" || !regexTest1 (computedHost req)) = true := by
    rcases h with h | h <;> simp [h]
  refine ⟨?_, ?_, ?_⟩ <;> simp [handleFirst, handleFirstAux, h1, send404Resp]

/-- Concrete instance of C6: the invalid host `!!` gets the 404 page. -/
theorem c6_witness :
    (handleFirst emptyFS cwd0 ⟨none, some "!!", "/"⟩).1 =
      send404Resp (some "!!") ("无效域名: " ++ computedHost ⟨none, some "!!", "/"⟩) ∧
    (handleFirst emptyFS cwd0 ⟨none, some "!!", "/"⟩).1.status = 404 ∧
    (handleFirst emptyFS cwd0 ⟨none, some "!!", "/"⟩).1.status ≠ 400 :=
  c6_invalid_host_404_page emptyFS cwd0 ⟨none, some "!!", "/"⟩ (Or.inr (by decide))

/-! ## Claim C7 -/

/-- The raw host header passed to `send404` affects only the text inside 404
bodies: two invocations differing only in that header take the same branches
and produce the same status and the same filesystem trace. -/
theorem handleFirstAux_hdr_ext (fs : FS) (cwd host url : String) (hdr₁ hdr₂ : Option String) :
    (handleFirstAux fs cwd host url hdr₁).1.status =
      (handleFirstAux fs cwd host url hdr₂).1.status ∧
    (handleFirstAux fs cwd host url hdr₁).2 = (handleFirstAux fs cwd host url hdr₂).2 := by
  by_cases hA : (host == "" || !regexTest1 host) = true
  · simp [handleFirstAux, hA, send404Resp]
  · have hA2 : (host == "" || !regexTest1 host) = false := Bool.eq_false_iff.mpr hA
    by_cases hB : (strContains host ".." || strContains host "/" ||
        strContains host "\\") = true
    · simp [handleFirstAux, hA2, hB, send404Resp]
    · have hB2 : (strContains host ".." || strContains host "/" ||
          strContains host "\\") = false := Bool.eq_false_iff.mpr hB
      by_cases hC : strStartsWith (pathNormalize (pathJoin (pathJoin cwd host) "index.html"))
          cwd = true
      · by_cases hD : fs.existsSync (pathNormalize (pathJoin (pathJoin cwd host)
            "index.html")) = true
        · cases hS : fs.statIsFile (pathNormalize (pathJoin (pathJoin cwd host) "index.html"))
            with
          | error e => cases e <;>
              simp [handleFirstAux, hA2, hB2, hC, hD, hS, send404Resp, sendErrorResp]
          | ok b => cases b <;>
              simp [handleFirstAux, hA2, hB2, hC, hD, hS, send404Resp, sendHtmlM]
        · have hD2 := Bool.eq_false_iff.mpr hD
          by_cases hE : (fs.existsSync (pathJoin cwd "index.html") && url == "/") = true
          · simp [handleFirstAux, hA2, hB2, hC, hD2, hE]
          · have hE2 := Bool.eq_false_iff.mpr hE
            simp [handleFirstAux, hA2, hB2, hC, hD2, hE2, send404Resp]
      · have hC2 := Bool.eq_false_iff.mpr hC
        simp [handleFirstAux, hA2, hB2, hC2, send404Resp]

/-- C7 counterexample: with no site configured, hosts `www.example.com` and
`example.com` both get the no-site 404, but the two responses are *not* equal:
the 404 page's domain box echoes the raw host header, which differs. -/
theorem c7_counterexample :
    (handleFirst emptyFS cwd0 ⟨none, some "www.example.com", "/x"⟩).1 ≠
      (handleFirst emptyFS cwd0 ⟨none, some "example.com", "/x"⟩).1 := by
  have h1 : (handleFirst emptyFS cwd0 ⟨none, some "www.example.com", "/x"⟩).1 =
      send404Resp (some "www.example.com")
        ("域名 \x22" ++ "example.com" ++ "\x22 的页面尚未创建") := rfl
  have h2 : (handleFirst emptyFS cwd0 ⟨none, some "example.com", "/x"⟩).1 =
      send404Resp (some "example.com")
        ("域名 \x22" ++ "example.com" ++ "\x22 的页面尚未创建") := rfl
  rw [h1, h2]
  intro hq
  have hb : notFoundHtml ("域名 \x22" ++ "example.com" ++ "\x22 的页面尚未创建")
        (jsOr (some "www.example.com") "未知域名") =
      notFoundHtml ("域名 \x22" ++ "example.com" ++ "\x22 的页面尚未创建")
        (jsOr (some "example.com") "未知域名") := by
    have hbody := congrArg Response.body hq
    simpa [send404Resp] using hbody
  have hlen := congrArg (fun s : String => s.data.length) hb
  simp only [notFoundHtml, String.data_append, List.length_append] at hlen
  have hw15 : (jsOr (some "www.example.com") "未知域名").data.length = 15 := rfl
  have hb11 : (jsOr (some "example.com") "未知域名").data.length = 11 := rfl
  rw [hw15, hb11] at hlen
  omega

/-- C7 (amended): `www.example.com` and `example.com` clean to the same host,
construct identical resolved paths, perform identical filesystem operations
and answer with the same status over any filesystem state and URL; the full
responses may differ only in the 404 page's echo of the raw host header. -/
theorem c7_amended_www_same_resolution (fs : FS) (cwd url : String) :
    computedHost ⟨none, some "www.example.com", url⟩ =
      computedHost ⟨none, some "example.com", url⟩ ∧
    pathNormalize (pathJoin (pathJoin cwd
        (computedHost ⟨none, some "www.example.com", url⟩)) "index.html") =
      pathNormalize (pathJoin (pathJoin cwd
        (computedHost ⟨none, some "example.com", url⟩)) "index.html") ∧
    (handleFirst fs cwd ⟨none, some "www.example.com", url⟩).1.status =
      (handleFirst fs cwd ⟨none, some "example.com", url⟩).1.status ∧
    (handleFirst fs cwd ⟨none, some "www.example.com", url⟩).2 =
      (handleFirst fs cwd ⟨none, some "example.com", url⟩).2 := by
  have hh : computedHost ⟨none, some "www.example.com", url⟩ =
      computedHost ⟨none, some "example.com", url⟩ := rfl
  refine ⟨hh, by rw [hh], ?_, ?_⟩
  · show (handleFirstAux fs cwd (computedHost ⟨none, some "www.example.com", url⟩) url
        (some "www.example.com")).1.status =
      (handleFirstAux fs cwd (computedHost ⟨none, some "example.com", url⟩) url
        (some "example.com")).1.status
    rw [hh]
    exact (handleFirstAux_hdr_ext fs cwd _ url (some "www.example.com") (some "example.com")).1
  · show (handleFirstAux fs cwd (computedHost ⟨none, some "www.example.com", url⟩) url
        (some "www.example.com")).2 =
      (handleFirstAux fs cwd (computedHost ⟨none, some "example.com", url⟩) url
        (some "example.com")).2
    rw [hh]
    exact (handleFirstAux_hdr_ext fs cwd _ url (some "www.example.com") (some "example.com")).2

/-! ## Claim C8 -/

/-- C8: exceptions raised by filesystem access are consumed inside the handler
and mapped to terminal responses: a `statSync` throw after the existence check
maps `ENOENT` to the 404 page, `EACCES` to the 403 JSON error and anything
else to the 500 JSON error, and a `readFileSync` failure after a successful
existence check and stat maps to the 500 "cannot read page content" JSON
error.  (The handler is a total function: no exception reaches the runtime.) -/
theorem c8_exceptions_mapped (segs : List (List Char)) (hw : WfCwd segs) (req : Request)
    (hreg : regexTest1 (computedHost req) = true)
    (hdots : strContains (computedHost req) ".." = false)
    (fs₁ fs₂ : FS) (e₁ e₂ : FsError) :
    (fs₁.existsSync (mkAbs segs ++ "/" ++ computedHost req ++ "/index.html") = true →
     fs₁.statIsFile (mkAbs segs ++ "/" ++ computedHost req ++ "/index.html") =
       Except.error e₁ →
     (handleFirst fs₁ (mkAbs segs) req).1 =
       (match e₁ with
        | FsError.enoent => send404Resp req.host "请求的资源不存在"
        | FsError.eacces => sendErrorResp 403 "没有访问权限"
        | FsError.other => sendErrorResp 500 "服务器内部错误")) ∧
    (fs₂.existsSync (mkAbs segs ++ "/" ++ computedHost req ++ "/index.html") = true →
     fs₂.statIsFile (mkAbs segs ++ "/" ++ computedHost req ++ "/index.html") =
       Except.ok true →
     fs₂.readFile (mkAbs segs ++ "/" ++ computedHost req ++ "/index.html") =
       Except.error e₂ →
     (handleFirst fs₂ (mkAbs segs) req).1 = sendErrorResp 500 "无法读取页面内容") := by
  constructor
  · intro hex hstat
    rw [← mkAbs_host_index segs hw.1 (computedHost req)] at hex hstat
    unfold handleFirst
    rw [handleFirstAux_good fs₁ segs hw (computedHost req) hreg hdots req.url req.host]
    cases e₁ <;> simp [hex, hstat]
  · intro hex hstat hread
    rw [← mkAbs_host_index segs hw.1 (computedHost req)] at hex hstat hread
    unfold handleFirst
    rw [handleFirstAux_good fs₂ segs hw (computedHost req) hreg hdots req.url req.host]
    simp [hex, hstat, hread, sendHtmlM]

/-- Concrete instances of C8: an `EACCES` stat throw yields the 403 JSON
error; a read failure after the existence check yields the 500 JSON error. -/
theorem c8_witness :
    (handleFirst fsStatEacces (mkAbs segsVT) ⟨none, some "example.com", "/"⟩).1 =
      sendErrorResp 403 "没有访问权限" ∧
    (handleFirst fsReadFail (mkAbs segsVT) ⟨none, some "example.com", "/"⟩).1 =
      sendErrorResp 500 "无法读取页面内容" := by
  constructor
  · exact (c8_exceptions_mapped segsVT ⟨by decide, by decide⟩
      ⟨none, some "example.com", "/"⟩ (by decide) (by decide) fsStatEacces fsReadFail
      FsError.eacces FsError.enoent).1 (by decide) (by rfl)
  · exact (c8_exceptions_mapped segsVT ⟨by decide, by decide⟩
      ⟨none, some "example.com", "/"⟩ (by decide) (by decide) fsStatEacces fsReadFail
      FsError.eacces FsError.enoent).2 (by decide) (by rfl) (by rfl)

/-! ## Claim C9 -/

/-- Appending a plain segment keeps a working directory well-formed. -/
theorem WfCwd.snoc {segs : List (List Char)} (hw : WfCwd segs) {b : List Char}
    (hb : PlainSeg b) : WfCwd (segs ++ [b]) := by
  refine ⟨by simp, fun s hs => ?_⟩
  rcases List.mem_append.mp hs with hs | hs
  · exact hw.2 s hs
  · exact (List.mem_singleton.mp hs) ▸ hb

/-- C9: for every host passing both the validation regex and the substring
blacklist, over a well-formed working directory, the normalized path
`normalize(join(cwd, host, 'index.html'))` string-starts with the working
directory — so the `非法路径访问` containment branch is unreachable under that
precondition. -/
theorem c9_validated_host_stays_inside (segs : List (List Char)) (hw : WfCwd segs)
    (host : String) (hreg : regexTest1 host = true)
    (hbl : (strContains host ".." || strContains host "/" ||
      strContains host "\\") = false) :
    strStartsWith (pathNormalize (pathJoin (pathJoin (mkAbs segs) host) "index.html"))
      (mkAbs segs) = true := by
  have hplain : PlainSeg host.data := regexTest1_plain hreg
  have hplainIdx : PlainSeg ("index.html" : String).data := by decide
  rw [pathJoin_mkAbs segs hw host hplain,
    pathJoin_mkAbs _ (hw.snoc hplain) _ hplainIdx,
    pathNormalize_mkAbs _ ((hw.snoc hplain).snoc hplainIdx),
    List.append_assoc]
  exact strStartsWith_mkAbs_append segs ([host.data] ++ [("index.html" : String).data])
    hw.1 (by simp)

/-- Concrete instance of C9 at `/var/task` and `example.com`. -/
theorem c9_witness :
    strStartsWith (pathNormalize (pathJoin (pathJoin (mkAbs segsVT) "example.com")
      "index.html")) (mkAbs segsVT) = true :=
  c9_validated_host_stays_inside segsVT ⟨by decide, by decide⟩ "example.com"
    (by decide) (by decide)

/-! ## Claim C10 -/

/-- C10: host matching is case-insensitive (`Example.COM` passes the regex)
but resolution is case-preserving: the handler's first filesystem probe for
host `Example.COM` is at `<cwd>/Example.COM/index.html` — the exact letter
case of the header — and that path differs from
`<cwd>/example.com/index.html`. -/
theorem c10_case_preserving_resolution (segs : List (List Char)) (hw : WfCwd segs)
    (fs : FS) (url : String) :
    regexTest1 "Example.COM" = true ∧
    (handleFirst fs (mkAbs segs) ⟨none, some "Example.COM", url⟩).2.head? =
      some (FsOp.existsCheck (mkAbs segs ++ "/Example.COM/index.html")) ∧
    mkAbs segs ++ "/Example.COM/index.html" ≠ mkAbs segs ++ "/example.com/index.html" := by
  have hpth : mkAbs (segs ++ [("Example.COM" : String).data, ("index.html" : String).data]) =
      mkAbs segs ++ "/Example.COM/index.html" := by
    rw [mkAbs_host_index segs hw.1 "Example.COM"]
    apply String.ext
    simp only [String.data_append, List.append_assoc]
    congr 1
  refine ⟨by decide, ?_, ?_⟩
  · show (handleFirstAux fs (mkAbs segs) (computedHost ⟨none, some "Example.COM", url⟩) url
        (some "Example.COM")).2.head? = _
    rw [show computedHost ⟨none, some "Example.COM", url⟩ = "Example.COM" from rfl]
    rw [handleFirstAux_good fs segs hw "Example.COM" (by decide) (by decide) url
      (some "Example.COM")]
    rw [hpth]
    by_cases hD : fs.existsSync (mkAbs segs ++ "/Example.COM/index.html") = true
    · simp only [hD, Bool.not_true, Bool.false_eq_true, if_false]
      cases hS : fs.statIsFile (mkAbs segs ++ "/Example.COM/index.html") with
      | error e => simp [hS]
      | ok b => cases b <;> simp [hS]
    · have hD2 := Bool.eq_false_iff.mpr hD
      by_cases hE : (fs.existsSync (mkAbs (segs ++ [("index.html" : String).data])) &&
          url == "/") = true
      · simp [hD2, hE]
      · have hE2 := Bool.eq_false_iff.mpr hE
        simp [hD2, hE2]
  · intro hq
    have hdq := congrArg String.data hq
    simp only [String.data_append] at hdq
    exact absurd (List.append_cancel_left hdq) (by decide)

/-- Concrete instance of C10 at `/var/task`. -/
theorem c10_witness :
    regexTest1 "Example.COM" = true ∧
    (handleFirst emptyFS (mkAbs segsVT) ⟨none, some "Example.COM", "/"⟩).2.head? =
      some (FsOp.existsCheck (mkAbs segsVT ++ "/Example.COM/index.html")) ∧
    mkAbs segsVT ++ "/Example.COM/index.html" ≠ mkAbs segsVT ++ "/example.com/index.html" :=
  c10_case_preserving_resolution segsVT ⟨by decide, by decide⟩ emptyFS "/"

end DomainRouter
